import Mathlib

/-!
# VentureVerse Developer Kit — verification of the spec against the source

Shallow embedding of the parts of the VentureVerse SDK that the claims
concern:

* `RateLimiter` (security/auth-system.js): sliding-window rate limiter.
* `VentureVerseEncryption` (ventureverse-sdk-v2.js): XOR cipher with
  base64 (`btoa`/`atob`) encoding, with try/catch fallback to the input.
* The message correlator of `VentureVerseSDK` (ventureverse-sdk-v2.js):
  `sendMessage`, `handleMessage`, `validateMessage`, pending-request map,
  timeouts, and `destroy`.
* `refreshUserProfile` / `getURLParamsFallback` fallback path.

JavaScript strings are modelled as lists of UTF-16 code units
(`List Nat`, each < 65536); timestamps as `Int` (JS numbers used as
integral epoch milliseconds, and `now - windowMs` may be negative).
-/

namespace VV

/-! ## Sliding-window rate limiter (security/auth-system.js, RateLimiter) -/

/-- State of `RateLimiter`: the `maxRequests` / `windowMs` options and the
`requests` map from identifier to the recorded timestamp array. -/
structure RateLimiter where
  maxRequests : Nat
  windowMs : Nat
  requests : List (String × List Int)
deriving Repr, DecidableEq

namespace RateLimiter

/-- `new RateLimiter({maxRequests, windowMs})` with an empty map. -/
def init (maxRequests windowMs : Nat) : RateLimiter :=
  { maxRequests := maxRequests, windowMs := windowMs, requests := [] }

/-- `this.requests.get(identifier)`, with the `if (!has) set []` step of
`isAllowed` folded in: a missing identifier reads as `[]`. -/
def timestampsOf (rl : RateLimiter) (identifier : String) : List Int :=
  match rl.requests.lookup identifier with
  | some l => l
  | none => []

/-- Store a fresh timestamp list for an identifier
(`this.requests.set(identifier, ...)`). -/
def setTimestamps (rl : RateLimiter) (identifier : String) (l : List Int) :
    RateLimiter :=
  { rl with requests := (identifier, l) :: rl.requests.eraseP (·.1 == identifier) }

/-- `RateLimiter.isAllowed(identifier)` at time `now`:
`windowStart = now - windowMs`; keep the timestamps with
`time > windowStart`; admit iff their count is `< maxRequests`, pushing
`now` onto the kept list only on admission. Returns the decision and the
updated limiter. -/
def isAllowed (rl : RateLimiter) (identifier : String) (now : Int) :
    Bool × RateLimiter :=
  let windowStart : Int := now - (rl.windowMs : Int)
  let validRequests := (rl.timestampsOf identifier).filter (fun t => windowStart < t)
  if validRequests.length < rl.maxRequests then
    (true, rl.setTimestamps identifier (validRequests ++ [now]))
  else
    (false, rl.setTimestamps identifier validRequests)

/-- Run a sequence of `isAllowed` calls, returning the list of decisions. -/
def runCalls (rl : RateLimiter) : List (String × Int) → List Bool × RateLimiter
  | [] => ([], rl)
  | (id0, now) :: rest =>
    let (b, rl') := rl.isAllowed id0 now
    let (bs, rl'') := rl'.runCalls rest
    (b :: bs, rl'')

/-- The claim's literal pruning rule: discard only timestamps strictly
older than `now - windowMs` (keep `time ≥ now - windowMs`), then admit
iff the remainder is below the limit. Written from the claim's words, to
be compared with the source's `isAllowed`. -/
def isAllowedClaimed (rl : RateLimiter) (identifier : String) (now : Int) :
    Bool × RateLimiter :=
  let windowStart : Int := now - (rl.windowMs : Int)
  let validRequests := (rl.timestampsOf identifier).filter (fun t => windowStart ≤ t)
  if validRequests.length < rl.maxRequests then
    (true, rl.setTimestamps identifier (validRequests ++ [now]))
  else
    (false, rl.setTimestamps identifier validRequests)

end RateLimiter

end VV

/-! ## Rate limiter theorems -/

namespace VV.RateLimiter

theorem timestampsOf_setTimestamps (rl : RateLimiter) (id0 : String)
    (l : List Int) : (rl.setTimestamps id0 l).timestampsOf id0 = l := by
  simp [timestampsOf, setTimestamps, List.lookup]

theorem lookup_eraseP {α : Type} (l : List (String × α)) (id0 id1 : String)
    (h : id0 ≠ id1) :
    (l.eraseP (·.1 == id1)).lookup id0 = l.lookup id0 := by
  induction l with
  | nil => rfl
  | cons p rest ih =>
    by_cases hp : p.1 = id1
    · have hne : (id0 == p.1) = false := by
        simp [hp, h]
      have hne2 : (id0 == id1) = false := by simp [h]
      simp [List.eraseP, hp, List.lookup, hne, hne2]
    · have hcond : (p.1 == id1) = false := by simp [hp]
      by_cases hq : id0 = p.1
      · simp [List.eraseP, hcond, List.lookup, hq]
      · have hne : (id0 == p.1) = false := by simp [hq]
        simp [List.eraseP, hcond, List.lookup, hne, ih]

theorem timestampsOf_setTimestamps_ne (rl : RateLimiter) (id0 id1 : String)
    (l : List Int) (h : id0 ≠ id1) :
    (rl.setTimestamps id1 l).timestampsOf id0 = rl.timestampsOf id0 := by
  have hne : (id0 == id1) = false := by simp [h]
  simp [timestampsOf, setTimestamps, List.lookup, hne, lookup_eraseP _ _ _ h]

/-- `C7` (amended). `RateLimiter.isAllowed` first discards the
identifier's recorded timestamps that are **not strictly newer** than
`now - windowMs` (i.e. it also discards a timestamp equal to
`now - windowMs`, not only those strictly older), admits the call iff the
remaining count is strictly below `maxRequests`, and appends the current
timestamp to the kept list only on admission; other identifiers' records
are untouched. In particular with limit 3 and window 1000 ms, three calls
at t = 0 are admitted, a fourth at t = 0 is rejected, and a fifth at
t = 1001 is admitted. -/
theorem isAllowed_spec :
    (∀ (rl : RateLimiter) (id0 : String) (now : Int),
      (rl.isAllowed id0 now).1 =
        decide ((((rl.timestampsOf id0).filter
          (fun t => now - (rl.windowMs : Int) < t)).length < rl.maxRequests)) ∧
      ((rl.isAllowed id0 now).2.timestampsOf id0 =
        (let kept := (rl.timestampsOf id0).filter
            (fun t => now - (rl.windowMs : Int) < t)
         if (rl.isAllowed id0 now).1 then kept ++ [now] else kept)) ∧
      (∀ id1 : String, id1 ≠ id0 →
        (rl.isAllowed id0 now).2.timestampsOf id1 = rl.timestampsOf id1)) ∧
    ((RateLimiter.init 3 1000).runCalls
        [("a", 0), ("a", 0), ("a", 0), ("a", 0), ("a", 1001)]).1 =
      [true, true, true, false, true] := by
  constructor
  · intro rl id0 now
    refine ⟨?_, ?_, ?_⟩
    · by_cases h : (((rl.timestampsOf id0).filter
          (fun t => now - (rl.windowMs : Int) < t)).length < rl.maxRequests) <;>
        simp [isAllowed, h]
    · by_cases h : (((rl.timestampsOf id0).filter
          (fun t => now - (rl.windowMs : Int) < t)).length < rl.maxRequests) <;>
        simp [isAllowed, h, timestampsOf_setTimestamps]
    · intro id1 hne
      by_cases h : (((rl.timestampsOf id0).filter
          (fun t => now - (rl.windowMs : Int) < t)).length < rl.maxRequests) <;>
        simp [isAllowed, h, timestampsOf_setTimestamps_ne _ _ _ _ hne]
  · rfl

/-- `C7` counterexample to the claim as stated: the claim's pruning rule
("discards timestamps older than now minus the window") keeps a timestamp
exactly `windowMs` old, while the source's `isAllowed` discards it: with
limit 1, window 1000 and a recorded call at t = 0, a call at t = 1000 is
admitted by the code but would be rejected under the claim's rule. -/
theorem isAllowed_claim_counterexample :
    ((RateLimiter.mk 1 1000 [("a", [0])]).isAllowed "a" 1000).1 = true ∧
    ((RateLimiter.mk 1 1000 [("a", [0])]).isAllowedClaimed "a" 1000).1 = false := by
  exact ⟨rfl, rfl⟩

/-- `C7` witness: the amended theorem applied to a limiter with limit 2,
window 50 and recorded calls for identifiers `"a"` and `"b"`, at
`now = 30`; the inequality hypothesis of the other-identifier clause is
discharged at `"b" ≠ "a"`. -/
theorem isAllowed_spec_witness :
    ((RateLimiter.mk 2 50 [("a", [7]), ("b", [1])]).isAllowed "a" 30).1 = true ∧
    (((RateLimiter.mk 2 50 [("a", [7]), ("b", [1])]).isAllowed "a" 30).2).timestampsOf "b"
      = [1] := by
  have h := isAllowed_spec.1 (RateLimiter.mk 2 50 [("a", [7]), ("b", [1])]) "a" 30
  constructor
  · rw [h.1]
    rfl
  · rw [h.2.2 "b" (by decide)]
    rfl

end VV.RateLimiter

namespace VV

/-! ## XOR cipher with base64 (`VentureVerseEncryption`)

`encrypt` XORs each UTF-16 code unit of the text with the key (cycled)
and applies `window.btoa`; `decrypt` applies `window.atob` and XORs with
the key. Both wrap the transform in try/catch and return the input
unchanged on error. Strings are lists of code units (`List Nat`). -/

/-- The base64 alphabet as character codes: `A`–`Z`, `a`–`z`, `0`–`9`,
`+`, `/`. -/
def b64Alphabet : List Nat :=
  (List.range 26).map (65 + ·) ++ (List.range 26).map (97 + ·) ++
    (List.range 10).map (48 + ·) ++ [43, 47]

/-- Encode a 6-bit value as a base64 character code. -/
def encSym (d : Nat) : Nat := b64Alphabet.getD d 0

/-- Look up a character code in the base64 alphabet (`atob`'s inverse
character table); `none` for a character outside the alphabet. -/
def b64Index (c : Nat) : Option Nat := b64Alphabet.findIdx? (· == c)

/-- `btoa` body: 3-byte groups to 4 base64 characters, a trailing group
of 1 or 2 bytes padded with `=` (code 61). -/
def btoaChunks : List Nat → List Nat
  | [] => []
  | [b0] => [encSym (b0 / 4), encSym (b0 % 4 * 16), 61, 61]
  | [b0, b1] =>
    [encSym (b0 / 4), encSym (b0 % 4 * 16 + b1 / 16), encSym (b1 % 16 * 4), 61]
  | b0 :: b1 :: b2 :: rest =>
    encSym (b0 / 4) :: encSym (b0 % 4 * 16 + b1 / 16) ::
      encSym (b1 % 16 * 4 + b2 / 64) :: encSym (b2 % 64) :: btoaChunks rest

/-- `window.btoa`: throws `InvalidCharacterError` iff some code unit of
the argument exceeds 255, else encodes; the thrown case is `none`. -/
def btoaOpt (s : List Nat) : Option (List Nat) :=
  if s.all (· < 256) then some (btoaChunks s) else none

/-- ASCII whitespace, removed by forgiving-base64 decoding. -/
def isB64Ws (c : Nat) : Bool :=
  c == 9 || c == 10 || c == 12 || c == 13 || c == 32

/-- Remove one or two trailing `=` characters (code 61). -/
def stripPad (l : List Nat) : List Nat :=
  match l.reverse with
  | c1 :: c2 :: rest =>
    if c1 = 61 then (if c2 = 61 then rest.reverse else (c2 :: rest).reverse) else l
  | [c1] => if c1 = 61 then [] else l
  | [] => l

/-- Decode base64 digit groups: 4 digits give 3 bytes; a trailing group
of 3 digits gives 2 bytes, of 2 digits 1 byte; a single trailing digit is
an error. -/
def atobChunks : List Nat → Option (List Nat)
  | [] => some []
  | [_] => none
  | [d0, d1] => some [d0 * 4 + d1 / 16]
  | [d0, d1, d2] => some [d0 * 4 + d1 / 16, d1 % 16 * 16 + d2 / 4]
  | d0 :: d1 :: d2 :: d3 :: rest =>
    (atobChunks rest).map
      (fun bs =>
        (d0 * 4 + d1 / 16) :: (d1 % 16 * 16 + d2 / 4) :: (d2 % 4 * 64 + d3) :: bs)

/-- Translate each character code to its 6-bit value, failing on a
character outside the alphabet. -/
def b64Decode : List Nat → Option (List Nat)
  | [] => some []
  | c :: cs =>
    match b64Index c, b64Decode cs with
    | some d, some ds => some (d :: ds)
    | _, _ => none

/-- `window.atob` (forgiving base64): strip ASCII whitespace; when the
length is a multiple of 4, strip up to two trailing `=`; throw (`none`)
when the remaining length is `1 mod 4` or a character is outside the
alphabet; else decode. -/
def atobOpt (s : List Nat) : Option (List Nat) :=
  let s1 := s.filter (fun c => !isB64Ws c)
  let s2 := if s1.length % 4 == 0 then stripPad s1 else s1
  if s2.length % 4 == 1 then none
  else
    match b64Decode s2 with
    | some ds => atobChunks ds
    | none => none

/-- XOR each code unit with the key cycled
(`char.charCodeAt(0) ^ key.charCodeAt(i % key.length)`), starting at
index `i`. An empty key reads as code 0 (JS: `"".charCodeAt(NaN)` is
`NaN` and `x ^ NaN` is `x ^ 0`). -/
def xorKey (key : List Nat) : Nat → List Nat → List Nat
  | _, [] => []
  | i, c :: cs => (c ^^^ key.getD (i % key.length) 0) :: xorKey key (i + 1) cs

/-- `VentureVerseEncryption.encrypt`: XOR with the key, then `btoa`; if
that throws, return the input text unchanged. -/
def encrypt (key text : List Nat) : List Nat :=
  match btoaOpt (xorKey key 0 text) with
  | some r => r
  | none => text

/-- `VentureVerseEncryption.decrypt`: `atob`, then XOR with the key; if
`atob` throws, return the input unchanged. -/
def decrypt (key s : List Nat) : List Nat :=
  match atobOpt s with
  | some decoded => xorKey key 0 decoded
  | none => s

/-- Proof-layer view of `btoaChunks`: the emitted 6-bit digit list,
without the symbol encoding and padding. -/
def btoaDigits : List Nat → List Nat
  | [] => []
  | [b0] => [b0 / 4, b0 % 4 * 16]
  | [b0, b1] => [b0 / 4, b0 % 4 * 16 + b1 / 16, b1 % 16 * 4]
  | b0 :: b1 :: b2 :: rest =>
    (b0 / 4) :: (b0 % 4 * 16 + b1 / 16) :: (b1 % 16 * 4 + b2 / 64) :: (b2 % 64) ::
      btoaDigits rest

/-- Proof-layer view of the padding emitted by `btoaChunks`. -/
def padList : List Nat → List Nat
  | [] => []
  | [_] => [61, 61]
  | [_, _] => [61]
  | _ :: _ :: _ :: rest => padList rest

theorem encSym_spec :
    ∀ d : Nat, d < 64 →
      (!isB64Ws (encSym d)) = true ∧ encSym d ≠ 61 ∧ b64Index (encSym d) = some d := by
  decide

theorem btoaChunks_eq (bytes : List Nat) :
    btoaChunks bytes = (btoaDigits bytes).map encSym ++ padList bytes := by
  induction bytes using btoaChunks.induct <;>
    simp_all [btoaChunks, btoaDigits, padList]

theorem btoaDigits_lt :
    ∀ bytes : List Nat, (∀ b ∈ bytes, b < 256) → ∀ d ∈ btoaDigits bytes, d < 64 := by
  intro bytes
  induction bytes using btoaDigits.induct with
  | case1 => intro _ d hd; simp [btoaDigits] at hd
  | case2 b0 =>
    intro h d hd
    have hb0 := h b0 (by simp)
    simp [btoaDigits] at hd
    rcases hd with rfl | rfl <;> omega
  | case3 b0 b1 =>
    intro h d hd
    have hb0 := h b0 (by simp)
    have hb1 := h b1 (by simp)
    simp [btoaDigits] at hd
    rcases hd with rfl | rfl | rfl <;> omega
  | case4 b0 b1 b2 rest ih =>
    intro h d hd
    have hb0 := h b0 (by simp)
    have hb1 := h b1 (by simp)
    have hb2 := h b2 (by simp)
    simp [btoaDigits] at hd
    rcases hd with rfl | rfl | rfl | rfl | hmem
    · omega
    · omega
    · omega
    · omega
    · exact ih (fun b hb => h b (by simp [hb])) d hmem

theorem padList_mem :
    ∀ bytes : List Nat, ∀ a ∈ padList bytes, a = 61 := by
  intro bytes
  induction bytes using padList.induct with
  | case1 => simp [padList]
  | case2 => simp [padList]
  | case3 => simp [padList]
  | case4 _ _ _ rest ih => simpa [padList] using ih

theorem filter_btoaChunks (bytes : List Nat) (h : ∀ b ∈ bytes, b < 256) :
    (btoaChunks bytes).filter (fun c => !isB64Ws c) = btoaChunks bytes := by
  apply List.filter_eq_self.mpr
  intro a ha
  rw [btoaChunks_eq] at ha
  rcases List.mem_append.mp ha with h1 | h2
  · obtain ⟨d, hd, rfl⟩ := List.mem_map.mp h1
    exact (encSym_spec d (btoaDigits_lt bytes h d hd)).1
  · have := padList_mem bytes a h2
    subst this
    decide

theorem btoaChunks_len (bytes : List Nat) :
    (btoaChunks bytes).length % 4 = 0 := by
  induction bytes using btoaChunks.induct <;> simp_all [btoaChunks] <;> omega

theorem btoaDigits_len (bytes : List Nat) :
    (btoaDigits bytes).length % 4 ≠ 1 := by
  induction bytes using btoaDigits.induct <;> simp_all [btoaDigits] <;> omega

theorem btoaChunks_len_ge (bytes : List Nat) (h : bytes ≠ []) :
    4 ≤ (btoaChunks bytes).length := by
  match bytes with
  | [b0] => simp [btoaChunks]
  | [b0, b1] => simp [btoaChunks]
  | b0 :: b1 :: b2 :: rest => simp [btoaChunks]

theorem stripPad_append (xs ys : List Nat) (h : 3 ≤ ys.length) :
    stripPad (xs ++ ys) = xs ++ stripPad ys := by
  obtain ⟨a, b, c, t, hrev⟩ : ∃ a b c t, ys.reverse = a :: b :: c :: t := by
    rcases hv : ys.reverse with _ | ⟨a, _ | ⟨b, _ | ⟨c, t⟩⟩⟩
    · exfalso
      have h0 : ys.reverse.length = 0 := by rw [hv]; rfl
      rw [List.length_reverse] at h0; omega
    · exfalso
      have h0 : ys.reverse.length = 1 := by rw [hv]; rfl
      rw [List.length_reverse] at h0; omega
    · exfalso
      have h0 : ys.reverse.length = 2 := by rw [hv]; rfl
      rw [List.length_reverse] at h0; omega
    · exact ⟨a, b, c, t, rfl⟩
  have hys : ys = t.reverse ++ [c, b, a] := by
    have := congrArg List.reverse hrev
    simpa using this
  subst hys
  by_cases ha : a = 61 <;> by_cases hb : b = 61 <;>
    simp [stripPad, List.reverse_append, ha, hb]

theorem stripPad_btoaChunks :
    ∀ bytes : List Nat, (∀ b ∈ bytes, b < 256) →
      stripPad (btoaChunks bytes) = (btoaDigits bytes).map encSym := by
  intro bytes
  induction bytes using btoaChunks.induct with
  | case1 => intro _; simp [btoaChunks, btoaDigits, stripPad]
  | case2 b0 =>
    intro h
    simp [btoaChunks, btoaDigits, stripPad]
  | case3 b0 b1 =>
    intro h
    have hb1 := h b1 (by simp)
    have h61 : encSym (b1 % 16 * 4) ≠ 61 := (encSym_spec _ (by omega)).2.1
    simp [btoaChunks, btoaDigits, stripPad, h61]
  | case4 b0 b1 b2 rest ih =>
    intro h
    have hb2 := h b2 (by simp)
    rcases hrest : rest with _ | ⟨r0, rtail⟩
    · have h61 : encSym (b2 % 64) ≠ 61 := (encSym_spec _ (by omega)).2.1
      simp [btoaChunks, btoaDigits, stripPad, h61]
    · rw [← hrest]
      have hne : rest ≠ [] := by simp [hrest]
      have hge : 3 ≤ (btoaChunks rest).length := by
        have := btoaChunks_len_ge rest hne; omega
      have ih' := ih (fun b hb => h b (by simp [hb]))
      show stripPad
          ([encSym (b0 / 4), encSym (b0 % 4 * 16 + b1 / 16),
            encSym (b1 % 16 * 4 + b2 / 64), encSym (b2 % 64)] ++ btoaChunks rest) =
        _
      rw [stripPad_append _ _ hge, ih']
      simp [btoaDigits]

theorem b64Decode_map :
    ∀ ds : List Nat, (∀ d ∈ ds, d < 64) → b64Decode (ds.map encSym) = some ds := by
  intro ds
  induction ds with
  | nil => intro _; rfl
  | cons d rest ih =>
    intro h
    have hd := (encSym_spec d (h d (by simp))).2.2
    have ih' := ih (fun x hx => h x (by simp [hx]))
    simp [b64Decode, hd, ih']

theorem atobChunks_btoaDigits :
    ∀ bytes : List Nat, (∀ b ∈ bytes, b < 256) →
      atobChunks (btoaDigits bytes) = some bytes := by
  intro bytes
  induction bytes using btoaDigits.induct with
  | case1 => intro _; rfl
  | case2 b0 =>
    intro h
    have hb0 := h b0 (by simp)
    simp [btoaDigits, atobChunks]
    omega
  | case3 b0 b1 =>
    intro h
    have hb0 := h b0 (by simp)
    have hb1 := h b1 (by simp)
    simp [btoaDigits, atobChunks]
    constructor <;> omega
  | case4 b0 b1 b2 rest ih =>
    intro h
    have hb0 := h b0 (by simp)
    have hb1 := h b1 (by simp)
    have hb2 := h b2 (by simp)
    have ih' := ih (fun b hb => h b (by simp [hb]))
    simp [btoaDigits, atobChunks, ih']
    refine ⟨?_, ?_, ?_⟩ <;> omega

theorem atobOpt_btoaChunks (bytes : List Nat) (h : ∀ b ∈ bytes, b < 256) :
    atobOpt (btoaChunks bytes) = some bytes := by
  unfold atobOpt
  rw [filter_btoaChunks bytes h]
  have hlen := btoaChunks_len bytes
  have hlen2 : ((btoaDigits bytes).map encSym).length % 4 ≠ 1 := by
    have := btoaDigits_len bytes
    simpa using this
  simp only [hlen, beq_self_eq_true, if_true]
  rw [stripPad_btoaChunks bytes h]
  rw [if_neg (by simpa using hlen2)]
  rw [b64Decode_map _ (btoaDigits_lt bytes h)]
  exact atobChunks_btoaDigits bytes h

theorem xorKey_xorKey (key : List Nat) :
    ∀ (i : Nat) (text : List Nat), xorKey key i (xorKey key i text) = text := by
  intro i text
  induction text generalizing i with
  | nil => rfl
  | cons c cs ih => simp [xorKey, Nat.xor_cancel_right, ih]

theorem getD_lt_256 (key : List Nat) (j : Nat) (h : ∀ k ∈ key, k < 256) :
    key.getD j 0 < 256 := by
  induction key generalizing j with
  | nil => simp [List.getD]
  | cons k ks ih =>
    cases j with
    | zero => simpa [List.getD] using h k (by simp)
    | succ n =>
      have := ih n (fun x hx => h x (by simp [hx]))
      simpa [List.getD] using this

theorem xorKey_lt (key : List Nat) (hkey : ∀ k ∈ key, k < 256) :
    ∀ (i : Nat) (text : List Nat), (∀ c ∈ text, c < 256) →
      ∀ c ∈ xorKey key i text, c < 256 := by
  intro i text
  induction text generalizing i with
  | nil => intro _ c hc; simp [xorKey] at hc
  | cons c0 cs ih =>
    intro h c hc
    simp only [xorKey, List.mem_cons] at hc
    rcases hc with rfl | hmem
    · have h1 : c0 < 2 ^ 8 := by have := h c0 (by simp); omega
      have h2 : key.getD (i % key.length) 0 < 2 ^ 8 := by
        have := getD_lt_256 key (i % key.length) hkey; omega
      have := Nat.xor_lt_two_pow h1 h2
      omega
    · exact ih (i + 1) (fun x hx => h x (by simp [hx])) c hmem

end VV

namespace VV

theorem btoaOpt_none_iff (s : List Nat) :
    btoaOpt s = none ↔ ∃ c ∈ s, 256 ≤ c := by
  unfold btoaOpt
  by_cases h : s.all (fun c => decide (c < 256)) = true
  · simp only [h, if_true]
    constructor
    · intro hc; exact absurd hc (by simp)
    · intro ⟨c, hc, hge⟩
      have := List.all_eq_true.mp h c hc
      simp at this
      omega
  · simp only [h]
    rw [if_neg (by simpa using h)]
    constructor
    · intro _
      rw [List.all_eq_true] at h
      push_neg at h
      obtain ⟨c, hc, hlt⟩ := h
      exact ⟨c, hc, by simpa using hlt⟩
    · intro _; rfl

/-- `C8` (amended). Round-trip of the XOR/base64 obfuscation utility:
for every printable-ASCII text and every key whose UTF-16 code units are
all in the Latin-1 range (below 256) — which includes the default key
`'ventureverse-default-key'` — `decrypt(encrypt(x)) = x`. -/
theorem decrypt_encrypt_roundtrip (key text : List Nat)
    (hkey : ∀ k ∈ key, k < 256)
    (htext : ∀ c ∈ text, 32 ≤ c ∧ c ≤ 126) :
    decrypt key (encrypt key text) = text := by
  have htext' : ∀ c ∈ text, c < 256 := by
    intro c hc; have := htext c hc; omega
  have hx : ∀ c ∈ xorKey key 0 text, c < 256 := xorKey_lt key hkey 0 text htext'
  have hall : (xorKey key 0 text).all (fun c => decide (c < 256)) = true := by
    rw [List.all_eq_true]
    intro c hc
    simpa using hx c hc
  unfold encrypt
  rw [btoaOpt]
  rw [if_pos hall]
  unfold decrypt
  rw [atobOpt_btoaChunks _ hx]
  exact xorKey_xorKey key 0 text

/-- `C8` witness: a concrete instance of the round-trip theorem, with
key `"key"` (`[107, 101, 121]`) and text `"Hi!"` (`[72, 105, 33]`). -/
theorem decrypt_encrypt_roundtrip_witness :
    decrypt [107, 101, 121] (encrypt [107, 101, 121] [72, 105, 33]) =
      [72, 105, 33] :=
  decrypt_encrypt_roundtrip [107, 101, 121] [72, 105, 33]
    (by decide) (by decide)

/-- `C8` counterexample to the claim as stated ("for **every** key"): for
the one-character key U+0100 (code 256, outside Latin-1) and the
printable-ASCII text `"aaaa"`, `encrypt` throws inside `btoa` (the XORed
code unit 353 exceeds 255) and falls back to returning the text, and
`decrypt` then base64-decodes `"aaaa"` successfully, so the round trip
returns garbage instead of the input. -/
theorem decrypt_encrypt_claim_counterexample :
    ([97, 97, 97, 97].all (fun c => 32 ≤ c && c ≤ 126)) = true ∧
    decrypt [256] (encrypt [256] [97, 97, 97, 97]) ≠ [97, 97, 97, 97] := by
  constructor
  · decide
  · decide

/-- `C10`. `VentureVerseEncryption.encrypt` and `decrypt` catch their own
errors and degrade to the identity: if some XORed code unit exceeds 255
(so `btoa` would throw), `encrypt` returns the input text unchanged, and
if the input is not acceptable forgiving-base64 (so `atob` throws),
`decrypt` returns its input unchanged. Concretely, `encrypt` on the
one-character text U+0100 with key `"k"` and `decrypt` on the
one-character text `"a"` (invalid base64) both return their input. -/
theorem encrypt_decrypt_error_fallback :
    (∀ key text : List Nat,
      (∃ c ∈ xorKey key 0 text, 256 ≤ c) → encrypt key text = text) ∧
    (∀ key s : List Nat, atobOpt s = none → decrypt key s = s) ∧
    encrypt [107] [256] = [256] ∧ decrypt [107] [97] = [97] := by
  refine ⟨?_, ?_, by decide, by decide⟩
  · intro key text hex
    unfold encrypt
    rw [(btoaOpt_none_iff _).mpr hex]
  · intro key s hnone
    unfold decrypt
    rw [hnone]

/-- `C10` witness: the fallback theorem applied at concrete inputs whose
hypotheses are discharged by computation: key `"k"` (code 107) with a
text containing the out-of-range code unit 300, and `decrypt` on the
one-character text `"a"`, which is invalid base64 (length 1 mod 4). -/
theorem encrypt_decrypt_error_fallback_witness :
    encrypt [107] [300] = [300] ∧ decrypt [9] [97] = [97] :=
  ⟨encrypt_decrypt_error_fallback.1 [107] [300] (by decide),
   encrypt_decrypt_error_fallback.2.1 [9] [97] (by decide)⟩

end VV

namespace VV

/-! ## Message correlator (`VentureVerseSDK`, ventureverse-sdk-v2.js)

`sendMessage` / `handleMessage` / `validateMessage` and the
pending-request map with timeouts, in iframe mode. The
continuation pair of a `PendingRequest` is represented by its
`requestId`; settlements are emitted as observations. -/

/-- A JavaScript value, to the depth the SDK's message logic inspects
one. `vNaN` is JS `NaN` (a falsy number unequal to every number). -/
inductive JVal where
  | vUndefined
  | vNull
  | vNaN
  | vBool (b : Bool)
  | vNum (n : Int)
  | vStr (s : String)
  | vObj (fields : List (String × JVal))
deriving Repr

/-- JS truthiness for the modelled values. -/
def truthy : JVal → Bool
  | .vUndefined => false
  | .vNull => false
  | .vNaN => false
  | .vBool b => b
  | .vNum n => n != 0
  | .vStr s => s != ""
  | .vObj _ => true

/-- Property access `v[name]`: the field of an object, else `undefined`. -/
def getField (v : JVal) (name : String) : JVal :=
  match v with
  | .vObj fields =>
    match fields.lookup name with
    | some x => x
    | none => .vUndefined
  | _ => .vUndefined

/-- `typeof v === 'object' && v` (an object, excluding `null`). -/
def isObjB : JVal → Bool
  | .vObj _ => true
  | _ => false

/-- `v === s` for a string literal `s` (strict equality). -/
def strictEqStr (v : JVal) (s : String) : Bool :=
  match v with
  | .vStr t => t == s
  | _ => false

/-- Whether an object value has the named own property. -/
def hasField (v : JVal) (name : String) : Bool :=
  match v with
  | .vObj fields => (fields.lookup name).isSome
  | _ => false

/-- `VentureVerseSDK.validateMessage`:
`data && typeof data === 'object' && data.type && data.timestamp &&
data.source === 'parent'`. -/
def validateMessage (data : JVal) : Bool :=
  truthy data && isObjB data && truthy (getField data "type") &&
    truthy (getField data "timestamp") && strictEqStr (getField data "source") "parent"

/-- Correlator state: the `requestId` counter and the `pendingRequests`
map (`requestId` to the message type recorded for its timeout error). -/
structure SdkState where
  nextId : Nat
  pending : List (Int × String)
deriving Repr, DecidableEq

/-- The state after the constructor: `this.requestId = 0`,
`this.pendingRequests = new Map()`. -/
def initState : SdkState := { nextId := 0, pending := [] }

/-- How a pending promise settles. -/
inductive Outcome where
  | resolved (payload : JVal)
  | rejected (err : JVal)
deriving Repr

/-- Settlement of a matched pending request in `handleMessage`:
`if (message.payload && message.payload.error) reject(payload.error)
else resolve(message.payload)`. -/
def settleOutcome (payload : JVal) : Outcome :=
  if truthy payload && truthy (getField payload "error") then
    .rejected (getField payload "error")
  else
    .resolved payload

/-- What one `handleMessage` invocation does. -/
inductive HandleResult where
  | dropped
  | settled (rid : Int) (out : Outcome)
  | dispatched (tag : JVal)
deriving Repr

/-- `VentureVerseSDK.handleMessage`: validate (silently ignoring invalid
messages); if `message.requestId` is truthy and keys a pending entry,
delete that entry and resolve/reject it, returning before any
type-based dispatch; otherwise fall through to the type switch and the
custom handlers (`dispatched` with the message's `type`). -/
def handleMessage (s : SdkState) (msg : JVal) : SdkState × HandleResult :=
  if validateMessage msg = false then
    (s, .dropped)
  else if truthy (getField msg "requestId") then
    match getField msg "requestId" with
    | .vNum n =>
      if (s.pending.lookup n).isSome then
        ({ s with pending := s.pending.eraseP (·.1 == n) },
          .settled n (settleOutcome (getField msg "payload")))
      else
        (s, .dispatched (getField msg "type"))
    | _ => (s, .dispatched (getField msg "type"))
  else
    (s, .dispatched (getField msg "type"))

/-- Result of `sendMessage` (iframe mode): for `expectResponse=false` the
returned promise resolves at once with no value and nothing is tracked;
for `expectResponse=true` a promise is registered under the freshly
allocated `requestId` with a timeout timer. -/
inductive SendResult where
  | immediate
  | tracked (rid : Int)
deriving Repr, DecidableEq

/-- `VentureVerseSDK.sendMessage` in iframe mode:
`requestId = expectResponse ? ++this.requestId : null`; when a response
is expected, register the pending entry (with its timeout) and post;
otherwise post and resolve immediately. -/
def sendMessage (s : SdkState) (msgType : String) (expectResponse : Bool) :
    SdkState × SendResult :=
  if expectResponse then
    let rid : Int := (s.nextId : Int) + 1
    ({ nextId := s.nextId + 1, pending := (rid, msgType) :: s.pending },
      .tracked rid)
  else
    (s, .immediate)

/-- The `setTimeout` callback of a tracked call firing while its entry is
still pending (a settled entry has cleared its timer via the wrapped
resolve/reject): delete the entry and reject with
`Request ${type} timed out`. A fire for an absent entry does nothing. -/
def fireTimeout (s : SdkState) (rid : Int) : SdkState × Option Outcome :=
  match s.pending.lookup rid with
  | some t =>
    ({ s with pending := s.pending.eraseP (·.1 == rid) },
      some (.rejected (.vStr ("Request " ++ t ++ " timed out"))))
  | none => (s, none)

/-- Events an SDK instance reacts to. -/
inductive Event where
  | send (msgType : String) (expectResponse : Bool)
  | recv (msg : JVal)
  | timeoutFire (rid : Int)

/-- Observable actions of one step. -/
inductive Obs where
  | sentImmediate
  | sentTracked (rid : Int)
  | dropped
  | settled (rid : Int) (out : Outcome)
  | dispatched (tag : JVal)
  | timeoutSettled (rid : Int) (out : Outcome)
  | timeoutNoop

/-- One event-driven step of the correlator. -/
def step (s : SdkState) : Event → SdkState × Obs
  | .send t er =>
    match sendMessage s t er with
    | (s', .immediate) => (s', .sentImmediate)
    | (s', .tracked rid) => (s', .sentTracked rid)
  | .recv m =>
    match handleMessage s m with
    | (s', .dropped) => (s', .dropped)
    | (s', .settled rid out) => (s', .settled rid out)
    | (s', .dispatched tag) => (s', .dispatched tag)
  | .timeoutFire rid =>
    match fireTimeout s rid with
    | (s', some out) => (s', .timeoutSettled rid out)
    | (s', none) => (s', .timeoutNoop)

/-- Run a list of events, collecting the observations in order. -/
def run (s : SdkState) : List Event → SdkState × List Obs
  | [] => (s, [])
  | e :: es =>
    let (s', o) := step s e
    let (s'', os) := run s' es
    (s'', o :: os)

/-- The `requestId` whose promise an observation settles, if any. -/
def settleOf : Obs → Option Int
  | .settled rid _ => some rid
  | .timeoutSettled rid _ => some rid
  | _ => none

/-- The `requestId` an observation allocates and tracks, if any. -/
def trackedOf : Obs → Option Int
  | .sentTracked rid => some rid
  | _ => none

/-- Whether an event can settle the promise with the given `requestId`:
an inbound message whose `requestId` field is exactly that number, or
that request's own timeout firing. -/
def eventSettles : Event → Int → Prop
  | .recv m, rid => getField m "requestId" = JVal.vNum rid
  | .timeoutFire r, rid => r = rid
  | .send _ _, _ => False

end VV

namespace VV

/-! ### Generic association-list lemmas -/

theorem lookup_mem {κ α : Type} [BEq κ] [LawfulBEq κ]
    (l : List (κ × α)) (k : κ) (v : α) (h : l.lookup k = some v) : (k, v) ∈ l := by
  induction l with
  | nil => simp [List.lookup] at h
  | cons p rest ih =>
    rw [List.lookup] at h
    by_cases hk : (k == p.1) = true
    · simp only [hk, cond_true, Option.some.injEq] at h
      have hkp : k = p.1 := eq_of_beq hk
      subst hkp
      subst h
      rw [Prod.mk.eta]
      exact List.mem_cons_self p rest
    · rw [Bool.not_eq_true] at hk
      simp only [hk, cond_false] at h
      exact List.mem_cons_of_mem p (ih h)

theorem lookup_eq_none_keys {κ α : Type} [BEq κ] [LawfulBEq κ]
    (l : List (κ × α)) (k : κ) : l.lookup k = none ↔ k ∉ l.map Prod.fst := by
  induction l with
  | nil => simp [List.lookup]
  | cons p rest ih =>
    rw [List.lookup]
    by_cases hk : (k == p.1) = true
    · have hkp : k = p.1 := eq_of_beq hk
      simp [hk, hkp]
    · have hkp : ¬(k = p.1) := fun hh => hk (by simp [hh])
      rw [Bool.not_eq_true] at hk
      simp [hk, hkp, ih]

theorem lookup_eraseP_ne' {κ α : Type} [BEq κ] [LawfulBEq κ]
    (l : List (κ × α)) (k0 k1 : κ) (h : k0 ≠ k1) :
    (l.eraseP (·.1 == k1)).lookup k0 = l.lookup k0 := by
  induction l with
  | nil => rfl
  | cons p rest ih =>
    by_cases hp : (p.1 == k1) = true
    · have hne : (k0 == p.1) = false := by
        rw [Bool.eq_false_iff]
        intro hc
        exact h (by rw [eq_of_beq hc, eq_of_beq hp])
      rw [List.eraseP_cons, hp]
      simp only [cond_true, List.lookup, hne, cond_false]
    · rw [Bool.not_eq_true] at hp
      rw [List.eraseP_cons, hp]
      simp only [cond_false, List.lookup]
      by_cases hq : (k0 == p.1) = true
      · simp only [hq, cond_true]
      · rw [Bool.not_eq_true] at hq
        simp only [hq, cond_false]
        exact ih

theorem eraseP_lookup_none {κ α : Type} [BEq κ] [LawfulBEq κ]
    (l : List (κ × α)) (k : κ) (hn : (l.map Prod.fst).Nodup) :
    (l.eraseP (·.1 == k)).lookup k = none := by
  induction l with
  | nil => rfl
  | cons p rest ih =>
    rw [List.map_cons, List.nodup_cons] at hn
    by_cases hp : (p.1 == k) = true
    · rw [List.eraseP_cons, hp]
      simp only [cond_true]
      rw [lookup_eq_none_keys]
      rw [eq_of_beq hp] at hn
      exact hn.1
    · have hkp : (k == p.1) = false := by
        rw [Bool.eq_false_iff]
        intro hc
        exact hp (by rw [eq_of_beq hc]; exact beq_self_eq_true p.1)
      rw [Bool.not_eq_true] at hp
      rw [List.eraseP_cons, hp]
      simp only [cond_false, List.lookup, hkp]
      exact ih hn.2

theorem eraseP_keys_sublist {κ α : Type} (l : List (κ × α)) (p : κ × α → Bool) :
    ((l.eraseP p).map Prod.fst).Sublist (l.map Prod.fst) :=
  (List.eraseP_sublist l).map Prod.fst

end VV

namespace VV

/-! ### Correlator trace invariants -/

theorem lookup_cons_ne {κ α : Type} [BEq κ] [LawfulBEq κ]
    (l : List (κ × α)) (k k' : κ) (v : α) (h : k ≠ k') :
    ((k', v) :: l).lookup k = l.lookup k := by
  have : (k == k') = false := by
    rw [Bool.eq_false_iff]; intro hc; exact h (eq_of_beq hc)
  simp [List.lookup, this]

theorem lookup_cons_self {κ α : Type} [BEq κ] [LawfulBEq κ]
    (l : List (κ × α)) (k : κ) (v : α) : ((k, v) :: l).lookup k = some v := by
  simp [List.lookup]

/-- Number of observations in a history that settle the promise of a
given `requestId`. -/
def countSettles (obs : List Obs) (rid : Int) : Nat :=
  obs.countP (fun o => settleOf o == some rid)

/-- Some observation in the history settles the given `requestId`. -/
def settledIn (obs : List Obs) (rid : Int) : Prop :=
  ∃ o ∈ obs, settleOf o = some rid

/-- The `requestId`s allocated by tracked sends, in trace order. -/
def trackedList (obs : List Obs) : List Int :=
  obs.filterMap trackedOf

theorem settledIn_append (obs : List Obs) (o : Obs) (rid : Int) :
    settledIn (obs ++ [o]) rid ↔ settledIn obs rid ∨ settleOf o = some rid := by
  simp only [settledIn, List.mem_append, List.mem_singleton]
  constructor
  · rintro ⟨x, hx | hx, hsx⟩
    · exact Or.inl ⟨x, hx, hsx⟩
    · subst hx; exact Or.inr hsx
  · rintro (⟨x, hx, hsx⟩ | hx)
    · exact ⟨x, Or.inl hx, hsx⟩
    · exact ⟨o, Or.inr rfl, hx⟩

theorem countSettles_append (obs : List Obs) (o : Obs) (rid : Int) :
    countSettles (obs ++ [o]) rid =
      countSettles obs rid + (if settleOf o = some rid then 1 else 0) := by
  simp only [countSettles, List.countP_append, List.countP_cons, List.countP_nil]
  by_cases h : settleOf o = some rid <;> simp [h]

theorem countSettles_eq_zero (obs : List Obs) (rid : Int) :
    countSettles obs rid = 0 ↔ ¬ settledIn obs rid := by
  simp [countSettles, List.countP_eq_zero, settledIn]

theorem trackedList_append (obs : List Obs) (o : Obs) :
    trackedList (obs ++ [o]) = trackedList obs ++ (trackedOf o).toList := by
  cases h : trackedOf o <;> simp [trackedList, List.filterMap_append, h]

/-- Trace invariant tying a correlator state to its observation history:
pending requestIds are unique, positive and bounded by the counter;
settled requestIds are bounded, no longer pending, and settled at most
once; a tracked allocation is still pending or already settled; the
allocated requestIds are strictly increasing and bounded. -/
structure Inv (s : SdkState) (obs : List Obs) : Prop where
  nodup : (s.pending.map Prod.fst).Nodup
  pendingPos : ∀ p ∈ s.pending, 0 < p.1 ∧ p.1 ≤ (s.nextId : Int)
  settledDone : ∀ rid : Int, settledIn obs rid →
    0 < rid ∧ rid ≤ (s.nextId : Int) ∧ s.pending.lookup rid = none
  settleOnce : ∀ rid : Int, countSettles obs rid ≤ 1
  allocLive : ∀ rid : Int, Obs.sentTracked rid ∈ obs →
    (s.pending.lookup rid).isSome ∨ settledIn obs rid
  trackedSorted : (trackedList obs).Sorted (· < ·)
  trackedBounded : ∀ rid ∈ trackedList obs, 0 < rid ∧ rid ≤ (s.nextId : Int)

theorem inv_noop {s : SdkState} {obs : List Obs} (hinv : Inv s obs) (o : Obs)
    (hs : settleOf o = none) (ht : trackedOf o = none) :
    Inv s (obs ++ [o]) := by
  constructor
  · exact hinv.nodup
  · exact hinv.pendingPos
  · intro rid hr
    rw [settledIn_append] at hr
    rcases hr with hr | hr
    · exact hinv.settledDone rid hr
    · rw [hs] at hr; cases hr
  · intro rid
    rw [countSettles_append]
    have : ¬(settleOf o = some rid) := by rw [hs]; intro hh; cases hh
    simp only [this, if_false]
    exact hinv.settleOnce rid
  · intro rid hm
    rw [List.mem_append, List.mem_singleton] at hm
    rcases hm with hm | hm
    · rcases hinv.allocLive rid hm with hl | hl
      · exact Or.inl hl
      · right; rw [settledIn_append]; exact Or.inl hl
    · rw [← hm] at ht; cases ht
  · rw [trackedList_append, ht]
    simpa using hinv.trackedSorted
  · intro rid hm
    rw [trackedList_append, ht] at hm
    simp only [Option.toList_none, List.append_nil] at hm
    exact hinv.trackedBounded rid hm

theorem inv_settle {s : SdkState} {obs : List Obs} (hinv : Inv s obs)
    (n : Int) (o : Obs) (hs : settleOf o = some n) (ht : trackedOf o = none)
    (hpend : (s.pending.lookup n).isSome) :
    Inv { s with pending := s.pending.eraseP (·.1 == n) } (obs ++ [o]) := by
  obtain ⟨t, hlook⟩ := Option.isSome_iff_exists.mp hpend
  have hmem : (n, t) ∈ s.pending := lookup_mem _ _ _ hlook
  have hbound := hinv.pendingPos (n, t) hmem
  constructor
  · exact List.Nodup.sublist (eraseP_keys_sublist _ _) hinv.nodup
  · intro p hp
    exact hinv.pendingPos p (List.mem_of_mem_eraseP hp)
  · intro rid hr
    rw [settledIn_append] at hr
    rcases hr with hr | hr
    · obtain ⟨h1, h2, h3⟩ := hinv.settledDone rid hr
      refine ⟨h1, h2, ?_⟩
      rw [lookup_eq_none_keys] at h3 ⊢
      intro hc
      exact h3 ((eraseP_keys_sublist _ _).subset hc)
    · rw [hs] at hr
      cases hr
      refine ⟨hbound.1, hbound.2, ?_⟩
      exact eraseP_lookup_none _ _ hinv.nodup
  · intro rid
    rw [countSettles_append]
    by_cases hc : rid = n
    · subst hc
      have h0 : countSettles obs rid = 0 := by
        rw [countSettles_eq_zero]
        intro hsIn
        have h3 := (hinv.settledDone rid hsIn).2.2
        rw [h3] at hlook; cases hlook
      simp [hs, h0]
    · have hne : ¬(settleOf o = some rid) := by
        rw [hs]; intro hh; cases hh; exact hc rfl
      simp only [hne, if_false]
      exact hinv.settleOnce rid
  · intro rid hm
    rw [List.mem_append, List.mem_singleton] at hm
    rcases hm with hm | hm
    · rcases hinv.allocLive rid hm with hl | hl
      · by_cases hc : rid = n
        · subst hc
          right; rw [settledIn_append]; exact Or.inr hs
        · left
          show ((s.pending.eraseP (·.1 == n)).lookup rid).isSome
          rw [lookup_eraseP_ne' _ _ _ hc]
          exact hl
      · right; rw [settledIn_append]; exact Or.inl hl
    · rw [← hm] at ht; cases ht
  · rw [trackedList_append, ht]
    simpa using hinv.trackedSorted
  · intro rid hm
    rw [trackedList_append, ht] at hm
    simp only [Option.toList_none, List.append_nil] at hm
    exact hinv.trackedBounded rid hm

theorem inv_send_true {s : SdkState} {obs : List Obs} (hinv : Inv s obs)
    (t : String) :
    Inv { nextId := s.nextId + 1, pending := ((s.nextId : Int) + 1, t) :: s.pending }
      (obs ++ [Obs.sentTracked ((s.nextId : Int) + 1)]) := by
  have hcast : ((s.nextId + 1 : Nat) : Int) = (s.nextId : Int) + 1 := by push_cast; ring
  have hfresh : ((s.nextId : Int) + 1) ∉ s.pending.map Prod.fst := by
    intro hc
    obtain ⟨p, hp, hfst⟩ := List.mem_map.mp hc
    have := (hinv.pendingPos p hp).2
    omega
  constructor
  · rw [List.map_cons]
    exact List.nodup_cons.mpr ⟨hfresh, hinv.nodup⟩
  · intro p hp
    rw [List.mem_cons] at hp
    rcases hp with rfl | hp
    · simp only [hcast]; omega
    · have := hinv.pendingPos p hp
      rw [hcast]; omega
  · intro rid hr
    rw [settledIn_append] at hr
    have hr' : settledIn obs rid := by
      rcases hr with hr | hr
      · exact hr
      · simp [settleOf] at hr
    obtain ⟨h1, h2, h3⟩ := hinv.settledDone rid hr'
    refine ⟨h1, by rw [hcast]; omega, ?_⟩
    rw [lookup_cons_ne _ _ _ _ (by omega)]
    exact h3
  · intro rid
    rw [countSettles_append]
    have : ¬(settleOf (Obs.sentTracked ((s.nextId : Int) + 1)) = some rid) := by
      simp [settleOf]
    simp only [this, if_false]
    exact hinv.settleOnce rid
  · intro rid hm
    rw [List.mem_append, List.mem_singleton] at hm
    rcases hm with hm | hm
    · rcases hinv.allocLive rid hm with hl | hl
      · left
        obtain ⟨v, hv⟩ := Option.isSome_iff_exists.mp hl
        have hmem := lookup_mem _ _ _ hv
        have hb := (hinv.pendingPos _ hmem).2
        rw [lookup_cons_ne _ _ _ _ (by omega), hv]
        rfl
      · right; rw [settledIn_append]; exact Or.inl hl
    · cases hm
      left
      rw [lookup_cons_self]
      rfl
  · rw [trackedList_append]
    simp only [trackedOf, Option.toList_some]
    rw [List.Sorted]
    rw [List.pairwise_append]
    refine ⟨hinv.trackedSorted, List.pairwise_singleton _ _, ?_⟩
    intro a ha b hb
    rw [List.mem_singleton] at hb
    subst hb
    have := (hinv.trackedBounded a ha).2
    omega
  · intro rid hm
    rw [trackedList_append] at hm
    simp only [trackedOf, Option.toList_some] at hm
    rw [List.mem_append, List.mem_singleton] at hm
    rcases hm with hm | hm
    · have := hinv.trackedBounded rid hm
      rw [hcast]; omega
    · subst hm
      rw [hcast]; omega

end VV

namespace VV

/-! ### Step and run lemmas -/

theorem handleMessage_settled {s s' : SdkState} {m : JVal} {n : Int} {out : Outcome}
    (h : handleMessage s m = (s', .settled n out)) :
    (s.pending.lookup n).isSome ∧
      s' = { s with pending := s.pending.eraseP (·.1 == n) } ∧
      getField m "requestId" = JVal.vNum n ∧
      out = settleOutcome (getField m "payload") := by
  unfold handleMessage at h
  split at h
  · simp at h
  · split at h
    · split at h
      · split at h
        · rename_i hmatch hsome
          obtain ⟨h1, h2⟩ := Prod.mk.injEq .. ▸ h
          injection h2 with hn hout
          subst hn
          exact ⟨hsome, h1.symm ▸ rfl, hmatch, hout.symm⟩
        · simp at h
      · simp at h
    · simp at h

theorem handleMessage_not_settled {s s' : SdkState} {m : JVal} {r : HandleResult}
    (h : handleMessage s m = (s', r)) (hr : ∀ n out, r ≠ .settled n out) :
    s' = s := by
  unfold handleMessage at h
  split at h
  · cases h; rfl
  · split at h
    · split at h
      · split at h
        · cases h; exact absurd rfl (hr _ _)
        · cases h; rfl
      · cases h; rfl
    · cases h; rfl

theorem fireTimeout_some {s s' : SdkState} {rid : Int} {out : Outcome}
    (h : fireTimeout s rid = (s', some out)) :
    ∃ t, s.pending.lookup rid = some t ∧
      s' = { s with pending := s.pending.eraseP (·.1 == rid) } ∧
      out = .rejected (.vStr ("Request " ++ t ++ " timed out")) := by
  unfold fireTimeout at h
  split at h
  · rename_i t hl
    obtain ⟨h1, h2⟩ := Prod.mk.injEq .. ▸ h
    injection h2 with hout
    exact ⟨t, hl, h1.symm ▸ rfl, hout.symm⟩
  · simp at h

theorem fireTimeout_none {s s' : SdkState} {rid : Int}
    (h : fireTimeout s rid = (s', none)) :
    s' = s ∧ s.pending.lookup rid = none := by
  unfold fireTimeout at h
  split at h
  · simp at h
  · rename_i hl
    cases h
    exact ⟨rfl, hl⟩

theorem step_inv {s : SdkState} {obs : List Obs} (hinv : Inv s obs) (e : Event) :
    Inv (step s e).1 (obs ++ [(step s e).2]) := by
  cases e with
  | send t er =>
    cases er
    · exact inv_noop hinv _ rfl rfl
    · exact inv_send_true hinv t
  | recv m =>
    rcases hH : handleMessage s m with ⟨s', r⟩
    cases r with
    | dropped =>
      have hs := handleMessage_not_settled hH (by intro n out hc; cases hc)
      have hstep : step s (Event.recv m) = (s', Obs.dropped) := by
        simp [step, hH]
      rw [hstep, hs]
      exact inv_noop hinv _ rfl rfl
    | dispatched tag =>
      have hs := handleMessage_not_settled hH (by intro n out hc; cases hc)
      have hstep : step s (Event.recv m) = (s', Obs.dispatched tag) := by
        simp [step, hH]
      rw [hstep, hs]
      exact inv_noop hinv _ rfl rfl
    | settled n out =>
      obtain ⟨hpend, hs', _, _⟩ := handleMessage_settled hH
      have hstep : step s (Event.recv m) = (s', Obs.settled n out) := by
        simp [step, hH]
      rw [hstep, hs']
      exact inv_settle hinv n _ rfl rfl hpend
  | timeoutFire rid =>
    rcases hF : fireTimeout s rid with ⟨s', oo⟩
    cases oo with
    | none =>
      obtain ⟨hs, _⟩ := fireTimeout_none hF
      have hstep : step s (Event.timeoutFire rid) = (s', Obs.timeoutNoop) := by
        simp [step, hF]
      rw [hstep, hs]
      exact inv_noop hinv _ rfl rfl
    | some out =>
      obtain ⟨t, hl, hs', _⟩ := fireTimeout_some hF
      have hstep : step s (Event.timeoutFire rid) = (s', Obs.timeoutSettled rid out) := by
        simp [step, hF]
      rw [hstep, hs']
      exact inv_settle hinv rid _ rfl rfl (by rw [hl]; rfl)

theorem init_inv : Inv initState [] := by
  constructor
  · simp [initState]
  · intro p hp; simp [initState] at hp
  · intro rid hr; obtain ⟨o, ho, _⟩ := hr; simp at ho
  · intro rid; simp [countSettles]
  · intro rid hm; simp at hm
  · simp [trackedList, List.Sorted]
  · intro rid hm; simp [trackedList] at hm

theorem run_cons (s : SdkState) (e : Event) (es : List Event) :
    run s (e :: es) =
      ((run (step s e).1 es).1, (step s e).2 :: (run (step s e).1 es).2) := rfl

theorem run_inv {s : SdkState} {obs : List Obs} (hinv : Inv s obs)
    (es : List Event) : Inv (run s es).1 (obs ++ (run s es).2) := by
  induction es generalizing s obs with
  | nil => simpa [run] using hinv
  | cons e es ih =>
    rw [run_cons]
    have h2 := ih (step_inv hinv e)
    simpa using h2

theorem run_append (s : SdkState) (es1 es2 : List Event) :
    run s (es1 ++ es2) =
      ((run (run s es1).1 es2).1, (run s es1).2 ++ (run (run s es1).1 es2).2) := by
  induction es1 generalizing s with
  | nil => simp [run]
  | cons e es ih =>
    rw [List.cons_append, run_cons, ih, run_cons]
    simp

theorem countSettles_append2 (l1 l2 : List Obs) (rid : Int) :
    countSettles (l1 ++ l2) rid = countSettles l1 rid + countSettles l2 rid := by
  simp [countSettles, List.countP_append]

theorem step_settleOf {s : SdkState} {e : Event} {rid : Int}
    (h : settleOf (step s e).2 = some rid) : eventSettles e rid := by
  cases e with
  | send t er =>
    cases er <;> simp [step, sendMessage, settleOf] at h
  | recv m =>
    rcases hH : handleMessage s m with ⟨s', r⟩
    cases r with
    | dropped => rw [show step s (Event.recv m) = (s', Obs.dropped) by simp [step, hH]] at h; simp [settleOf] at h
    | dispatched tag => rw [show step s (Event.recv m) = (s', Obs.dispatched tag) by simp [step, hH]] at h; simp [settleOf] at h
    | settled n out =>
      rw [show step s (Event.recv m) = (s', Obs.settled n out) by simp [step, hH]] at h
      have h2 := (handleMessage_settled hH).2.2.1
      simp [settleOf] at h
      subst h
      simpa [eventSettles] using h2
  | timeoutFire r =>
    rcases hF : fireTimeout s r with ⟨s', oo⟩
    cases oo with
    | none => rw [show step s (Event.timeoutFire r) = (s', Obs.timeoutNoop) by simp [step, hF]] at h; simp [settleOf] at h
    | some out =>
      rw [show step s (Event.timeoutFire r) = (s', Obs.timeoutSettled r out) by simp [step, hF]] at h
      simp only [settleOf, Option.some.injEq] at h
      simp only [eventSettles]
      omega

theorem run_settle_pos {s : SdkState} (es : List Event) (i : Nat) (rid : Int)
    (h : (run s es).2[i]?.bind settleOf = some rid) :
    ∃ e, es[i]? = some e ∧ eventSettles e rid := by
  induction es generalizing s i with
  | nil => simp [run] at h
  | cons e es ih =>
    rw [run_cons] at h
    cases i with
    | zero =>
      simp at h
      exact ⟨e, by simp, step_settleOf h⟩
    | succ n =>
      simp only [List.getElem?_cons_succ] at h
      obtain ⟨e', he', hs'⟩ := ih (s := (step s e).1) n h
      exact ⟨e', by simpa using he', hs'⟩

end VV

namespace VV

/-! ### Correlator claim theorems -/

theorem countSettles_cons (o : Obs) (l : List Obs) (rid : Int) :
    countSettles (o :: l) rid =
      (if settleOf o = some rid then 1 else 0) + countSettles l rid := by
  simp only [countSettles, List.countP_cons]
  by_cases h : settleOf o = some rid <;> simp [h] <;> omega

theorem countSettles_pos (obs : List Obs) (rid : Int) (h : settledIn obs rid) :
    1 ≤ countSettles obs rid := by
  obtain ⟨o, ho, hs⟩ := h
  have : 0 < countSettles obs rid := by
    rw [countSettles, List.countP_pos]
    exact ⟨o, ho, by simp [hs]⟩
  omega

theorem getField_of_not_hasField (v : JVal) (name : String)
    (h : hasField v name = false) : getField v name = .vUndefined := by
  cases v with
  | vObj fields =>
    simp only [getField]
    cases hl : fields.lookup name
    · rfl
    · rw [hasField, hl] at h
      simp at h
  | vUndefined => rfl
  | vNull => rfl
  | vNaN => rfl
  | vBool b => rfl
  | vNum n => rfl
  | vStr t => rfl

/-- `C1`. Request/response correlation: (1) along any event trace from a
fresh SDK instance, each requestId's promise is settled at most once;
(2) a settlement at trace position `i` is caused exactly by the event at
position `i`, and that event is either an inbound message whose
`requestId` field equals that call's requestId or that call's own
timeout — never a reply for a different call, whatever the arrival
order; (3) a validated inbound message whose truthy `requestId` keys a
pending entry settles exactly that entry (resolve, or reject on an
`error` payload) and never falls through to type-based dispatch; (4) a
tracked call whose timeout fires later in the trace is settled exactly
once. -/
theorem correlation_exactly_once :
    (∀ (es : List Event) (rid : Int),
      countSettles (run initState es).2 rid ≤ 1) ∧
    (∀ (es : List Event) (i : Nat) (rid : Int),
      (run initState es).2[i]?.bind settleOf = some rid →
      ∃ e, es[i]? = some e ∧ eventSettles e rid) ∧
    (∀ (s : SdkState) (m : JVal) (n : Int),
      validateMessage m = true →
      getField m "requestId" = JVal.vNum n →
      n ≠ 0 →
      (s.pending.lookup n).isSome = true →
      handleMessage s m =
        ({ s with pending := s.pending.eraseP (·.1 == n) },
          .settled n (settleOutcome (getField m "payload")))) ∧
    (∀ (es1 es2 : List Event) (rid : Int),
      Obs.sentTracked rid ∈ (run initState es1).2 →
      countSettles (run initState (es1 ++ Event.timeoutFire rid :: es2)).2 rid
        = 1) := by
  refine ⟨?_, ?_, ?_, ?_⟩
  · intro es rid
    have h := run_inv init_inv es
    simp only [List.nil_append] at h
    exact h.settleOnce rid
  · intro es i rid h
    exact run_settle_pos es i rid h
  · intro s m n hv hreq hn hpend
    unfold handleMessage
    rw [hv]
    simp only [Bool.true_eq_false, if_false]
    rw [hreq]
    have htr : truthy (JVal.vNum n) = true := by simp [truthy, hn]
    rw [if_pos htr]
    simp [hpend]
  · intro es1 es2 rid hmem
    have hinv1 : Inv (run initState es1).1 (run initState es1).2 := by
      have h := run_inv init_inv es1
      simpa using h
    have hinvF : Inv (run initState (es1 ++ Event.timeoutFire rid :: es2)).1
        (run initState (es1 ++ Event.timeoutFire rid :: es2)).2 := by
      have h := run_inv init_inv (es1 ++ Event.timeoutFire rid :: es2)
      simpa using h
    have htot := hinvF.settleOnce rid
    have hdecomp : (run initState (es1 ++ Event.timeoutFire rid :: es2)).2 =
        (run initState es1).2 ++
          (step (run initState es1).1 (Event.timeoutFire rid)).2 ::
            (run (step (run initState es1).1 (Event.timeoutFire rid)).1 es2).2 := by
      rw [run_append, run_cons]
    have hge : 1 ≤ countSettles
        (run initState (es1 ++ Event.timeoutFire rid :: es2)).2 rid := by
      rw [hdecomp, countSettles_append2, countSettles_cons]
      rcases hinv1.allocLive rid hmem with hl | hl
      · obtain ⟨t, hlt⟩ := Option.isSome_iff_exists.mp hl
        have hstep2 : (step (run initState es1).1 (Event.timeoutFire rid)).2 =
            Obs.timeoutSettled rid
              (.rejected (.vStr ("Request " ++ t ++ " timed out"))) := by
          simp [step, fireTimeout, hlt]
        rw [hstep2]
        have h1 : settleOf (Obs.timeoutSettled rid
            (.rejected (.vStr ("Request " ++ t ++ " timed out")))) = some rid := rfl
        rw [h1, if_pos rfl]
        omega
      · have := countSettles_pos _ _ hl
        omega
    omega

/-- `C1` witness: conjunct (3) applied at a pending entry `(1, t)` and a
validated reply carrying `requestId` 1, and conjunct (4) applied to the
trace `send; timeoutFire 1`. -/
theorem correlation_exactly_once_witness :
    handleMessage { nextId := 1, pending := [(1, "REQUEST_USER_PROFILE")] }
        (JVal.vObj [("type", JVal.vStr "USER_PROFILE_RESPONSE"),
          ("timestamp", JVal.vStr "2024-01-01T00:00:00Z"),
          ("source", JVal.vStr "parent"),
          ("requestId", JVal.vNum 1),
          ("payload", JVal.vObj [])]) =
      ({ nextId := 1, pending := [] },
        .settled 1 (settleOutcome (JVal.vObj []))) ∧
    countSettles
      (run initState
        [Event.send "REQUEST_USER_PROFILE" true, Event.timeoutFire 1]).2 1 = 1 := by
  constructor
  · have h := correlation_exactly_once.2.2.1
      { nextId := 1, pending := [(1, "REQUEST_USER_PROFILE")] }
      (JVal.vObj [("type", JVal.vStr "USER_PROFILE_RESPONSE"),
        ("timestamp", JVal.vStr "2024-01-01T00:00:00Z"),
        ("source", JVal.vStr "parent"),
        ("requestId", JVal.vNum 1),
        ("payload", JVal.vObj [])]) 1
      (by decide) (by rfl) (by decide) (by rfl)
    rw [h]
    rfl
  · have h := correlation_exactly_once.2.2.2
      [Event.send "REQUEST_USER_PROFILE" true] [] 1
      (by simp [run, step, sendMessage, initState])
    simpa using h

/-- `C3`. Every inbound message that is not an object carrying a `type`
field, a `timestamp` field and `source === 'parent'` is dropped by
`handleMessage` without touching the state: no pending entry is
resolved or rejected, no built-in or custom handler is dispatched, and
no error is surfaced. -/
theorem invalid_message_dropped (s : SdkState) (msg : JVal)
    (h : (isObjB msg && hasField msg "type" && hasField msg "timestamp" &&
          strictEqStr (getField msg "source") "parent") = false) :
    handleMessage s msg = (s, .dropped) := by
  have hv : validateMessage msg = false := by
    simp only [Bool.and_eq_false_iff] at h
    unfold validateMessage
    rcases h with ((hobj | htype) | hts) | hsrc
    · cases msg <;> simp_all [isObjB, truthy]
    · rw [getField_of_not_hasField _ _ htype]
      simp [truthy]
    · rw [getField_of_not_hasField _ _ hts]
      simp [truthy]
    · simp [hsrc]
  unfold handleMessage
  rw [hv]
  simp

/-- `C3` witness: a non-object message and an object without a
`timestamp` are both dropped with the state untouched. -/
theorem invalid_message_dropped_witness :
    handleMessage { nextId := 3, pending := [(2, "DEDUCT_CREDITS")] }
        (JVal.vNum 5) =
      ({ nextId := 3, pending := [(2, "DEDUCT_CREDITS")] }, .dropped) ∧
    handleMessage initState
      (JVal.vObj [("type", JVal.vStr "USER_PROFILE_RESPONSE"),
        ("source", JVal.vStr "parent")]) = (initState, .dropped) := by
  constructor
  · exact invalid_message_dropped _ _ (by decide)
  · exact invalid_message_dropped _ _ (by decide)

end VV

namespace VV

/-- `C4`. Timeout policy: when the timer of a pending call with
requestId `rid` and message type `t` fires, (1) the promise is rejected
with the error message `Request ${t} timed out`, naming the call's type;
(2) the pending entry is removed, (3) the pending count drops by one
(after a send immediately followed by its own timeout, the pending map
is exactly what it was before the call); (4) the correlator changes
nothing else — the requestId counter is untouched and no new request is
registered, so no retry happens at this level. -/
theorem timeout_rejects_and_clears (s : SdkState) (rid : Int) (t : String)
    (hn : (s.pending.map Prod.fst).Nodup)
    (hl : s.pending.lookup rid = some t) :
    (fireTimeout s rid).2 =
      some (.rejected (.vStr ("Request " ++ t ++ " timed out"))) ∧
    (fireTimeout s rid).1.pending.lookup rid = none ∧
    (fireTimeout s rid).1.pending.length + 1 = s.pending.length ∧
    (fireTimeout s rid).1.nextId = s.nextId ∧
    (∀ t2 : String,
      (fireTimeout (sendMessage s t2 true).1 ((s.nextId : Int) + 1)).1.pending
        = s.pending) := by
  refine ⟨?_, ?_, ?_, ?_, ?_⟩
  · unfold fireTimeout
    rw [hl]
  · unfold fireTimeout
    rw [hl]
    exact eraseP_lookup_none _ _ hn
  · unfold fireTimeout
    rw [hl]
    have hmem : (rid, t) ∈ s.pending := lookup_mem _ _ _ hl
    exact List.length_eraseP_add_one hmem (by simp)
  · unfold fireTimeout
    rw [hl]
  · intro t2
    simp [sendMessage, fireTimeout, List.lookup, List.eraseP_cons]

/-- `C4` witness: a pending `DEDUCT_CREDITS` call with requestId 1 whose
timer fires. -/
theorem timeout_rejects_and_clears_witness :
    (fireTimeout { nextId := 1, pending := [(1, "DEDUCT_CREDITS")] } 1).2 =
      some (.rejected (.vStr "Request DEDUCT_CREDITS timed out")) ∧
    ((fireTimeout { nextId := 1, pending := [(1, "DEDUCT_CREDITS")] } 1).1.pending).lookup 1
      = none := by
  have h := timeout_rejects_and_clears
    { nextId := 1, pending := [(1, "DEDUCT_CREDITS")] } 1 "DEDUCT_CREDITS"
    (by decide) (by rfl)
  exact ⟨h.1, h.2.1⟩

/-- `C5`. Pending-map and requestId invariants: in every state reachable
by an event trace from a fresh instance, (1) the pending map holds at
most one entry per requestId; (2) the requestIds allocated by successive
response-expecting sends form a strictly increasing sequence; (3) the
requestId that the next response-expecting send will allocate
(`++this.requestId`, i.e. the counter plus one) has no pending entry —
an id is never reallocated while still pending. -/
theorem requestId_invariants (es : List Event) :
    (((run initState es).1.pending.map Prod.fst).Nodup) ∧
    ((trackedList (run initState es).2).Sorted (· < ·)) ∧
    (∀ t : String,
      sendMessage (run initState es).1 t true =
        ({ nextId := (run initState es).1.nextId + 1,
           pending := (((run initState es).1.nextId : Int) + 1, t) ::
             (run initState es).1.pending },
          .tracked (((run initState es).1.nextId : Int) + 1)) ∧
      (run initState es).1.pending.lookup
        (((run initState es).1.nextId : Int) + 1) = none) := by
  have hinv : Inv (run initState es).1 (run initState es).2 := by
    have h := run_inv init_inv es
    simpa using h
  refine ⟨hinv.nodup, hinv.trackedSorted, ?_⟩
  intro t
  refine ⟨rfl, ?_⟩
  rw [lookup_eq_none_keys]
  intro hc
  obtain ⟨p, hp, hfst⟩ := List.mem_map.mp hc
  have := (hinv.pendingPos p hp).2
  omega

/-- `C9`. A call with `expectResponse = false` allocates no requestId,
registers no pending entry (the state is completely unchanged) and its
returned promise resolves immediately with no value. -/
theorem send_no_response_immediate (s : SdkState) (t : String) :
    sendMessage s t false = (s, .immediate) ∧
    (sendMessage s t false).1.pending = s.pending ∧
    (sendMessage s t false).1.nextId = s.nextId ∧
    step s (.send t false) = (s, .sentImmediate) := by
  exact ⟨rfl, rfl, rfl, rfl⟩

end VV

namespace VV

/-! ## Profile refresh and URL-parameter fallback
(`VentureVerseSDK.refreshUserProfile` / `getURLParamsFallback`) -/

/-- ASCII string literal as UTF-16 code units. -/
def asciiCodes (s : String) : List Nat := s.data.map Char.toNat

/-- JS whitespace skipped by `parseInt`. -/
def isJsWs (c : Nat) : Bool :=
  c == 9 || c == 10 || c == 11 || c == 12 || c == 13 || c == 32

/-- Decimal digit value of a code unit. -/
def digitVal (c : Nat) : Option Nat :=
  if 48 ≤ c ∧ c ≤ 57 then some (c - 48) else none

/-- Hexadecimal digit value of a code unit. -/
def hexVal (c : Nat) : Option Nat :=
  if 48 ≤ c ∧ c ≤ 57 then some (c - 48)
  else if 65 ≤ c ∧ c ≤ 70 then some (c - 55)
  else if 97 ≤ c ∧ c ≤ 102 then some (c - 87)
  else none

/-- Accumulate the longest digit prefix. -/
def parseDigitsAcc (f : Nat → Option Nat) (base : Nat) : List Nat → Nat → Nat
  | [], acc => acc
  | c :: cs, acc =>
    match f c with
    | some d => parseDigitsAcc f base cs (acc * base + d)
    | none => acc

/-- JS `parseInt(s)` with no radix: skip whitespace, optional sign,
auto-detected `0x`/`0X` hex prefix, longest digit prefix; `none` models
`NaN`. -/
def parseIntJS (v : List Nat) : Option Int :=
  let v1 := v.dropWhile isJsWs
  let signed : Int × List Nat :=
    match v1 with
    | 43 :: rest => (1, rest)
    | 45 :: rest => (-1, rest)
    | _ => (1, v1)
  match signed.2 with
  | 48 :: x :: rest =>
    if x == 120 || x == 88 then
      match rest with
      | c :: _ =>
        if (hexVal c).isSome then
          some (signed.1 * (parseDigitsAcc hexVal 16 rest 0 : Nat))
        else none
      | [] => none
    else some (signed.1 * (parseDigitsAcc digitVal 10 (48 :: x :: rest) 0 : Nat))
  | c :: cs =>
    if (digitVal c).isSome then
      some (signed.1 * (parseDigitsAcc digitVal 10 (c :: cs) 0 : Nat))
    else none
  | [] => none

/-- `VentureVerseEncryption.shouldEncrypt`: the sensitive-parameter
allow-list. -/
def shouldEncrypt (paramName : String) : Bool :=
  ["user_id", "user_email", "user_name", "auth_token"].contains paramName

/-- `VentureVerseEncryption.decryptUrlParams`: decrypt the values of the
sensitive parameters, pass the rest through. -/
def decryptUrlParams (key : List Nat) (params : List (String × List Nat)) :
    List (String × List Nat) :=
  params.map (fun p => if shouldEncrypt p.1 then (p.1, decrypt key p.2) else p)

/-- `urlParams.get(name)`: first occurrence or null. -/
def getParam (params : List (String × List Nat)) (name : String) :
    Option (List Nat) :=
  params.lookup name

/-- `x || d` where `x` is a string-or-null: empty string and null both
fall back. -/
def paramOr (v : Option (List Nat)) (d : List Nat) : List Nat :=
  match v with
  | some s => if s = [] then d else s
  | none => d

/-- The object literal built by `getURLParamsFallback`. -/
structure FallbackUser where
  id : Option Int
  email : List Nat
  first_name : List Nat
  last_name : List Nat
  monthly_credit_balance : Int
  top_up_credit_balance : Int
  tier_id : Int
  user_roles : List (List Nat)
deriving Repr, DecidableEq

/-- `VentureVerseSDK.getURLParamsFallback`: decrypt the sensitive query
parameters when encryption is enabled, then synthesize the fallback user
with both credit balances fixed to 0. -/
def getURLParamsFallback (key : List Nat) (enableEncryption : Bool)
    (rawParams : List (String × List Nat)) : FallbackUser :=
  let params := if enableEncryption then decryptUrlParams key rawParams else rawParams
  { id := parseIntJS (paramOr (getParam params "user_id") (asciiCodes "1")),
    email := paramOr (getParam params "user_email")
      (asciiCodes "fallback@ventureverse.com"),
    first_name :=
      match getParam params "user_name" with
      | some v => paramOr (some ((v.splitOn 32).getD 0 [])) (asciiCodes "User")
      | none => asciiCodes "User",
    last_name :=
      match getParam params "user_name" with
      | some v =>
        match (v.splitOn 32)[1]? with
        | some p => if p = [] then asciiCodes "Name" else p
        | none => asciiCodes "Name"
      | none => asciiCodes "Name",
    monthly_credit_balance := 0,
    top_up_credit_balance := 0,
    tier_id := 1,
    user_roles := [asciiCodes "founder"] }

/-- `x || 0` on a JS value. -/
def orZeroNum (v : JVal) : JVal := if truthy v then v else .vNum 0

/-- `{...obj, name: value}`: override in place or append. (Spreading a
primitive contributes no inspected properties.) -/
def setField (v : JVal) (name : String) (newVal : JVal) : JVal :=
  match v with
  | .vObj fields =>
    if (fields.lookup name).isSome then
      .vObj (fields.map (fun p => if p.1 == name then (p.1, newVal) else p))
    else
      .vObj (fields ++ [(name, newVal)])
  | _ => .vObj [(name, newVal)]

/-- The success-path patch of `refreshUserProfile`:
`{...response.user, monthly_credit_balance: u.monthly_credit_balance || 0,
top_up_credit_balance: u.top_up_credit_balance || 0}`. -/
def patchCredits (user : JVal) : JVal :=
  setField
    (setField user "monthly_credit_balance"
      (orZeroNum (getField user "monthly_credit_balance")))
    "top_up_credit_balance" (orZeroNum (getField user "top_up_credit_balance"))

/-- Result of `refreshUserProfile`. -/
inductive ProfileResult where
  | fromResponse (user : JVal)
  | fromParams (user : FallbackUser)
deriving Repr

/-- `VentureVerseSDK.refreshUserProfile`: await the correlated
`REQUEST_USER_PROFILE` call (`result` is its settlement); on a reply with
a truthy `user` field and no truthy `error` field, return the patched
user; on any error payload, null data, rejection or timeout, degrade to
`getURLParamsFallback`. -/
def refreshUserProfile (key : List Nat) (enableEncryption : Bool)
    (rawParams : List (String × List Nat)) (result : Except JVal JVal) :
    ProfileResult :=
  match result with
  | .ok resp =>
    if truthy (getField resp "user") && !truthy (getField resp "error") then
      .fromResponse (patchCredits (getField resp "user"))
    else
      .fromParams (getURLParamsFallback key enableEncryption rawParams)
  | .error _ =>
    .fromParams (getURLParamsFallback key enableEncryption rawParams)

/-- `C6`. Whenever the correlated profile request rejects (timeout or an
explicit error) or resolves without a truthy `user` field,
`refreshUserProfile` returns exactly the profile synthesized
deterministically from the page's query parameters, and that fallback's
`monthly_credit_balance` and `top_up_credit_balance` are 0 for every
key, encryption setting and parameter list — never a nonzero balance. -/
theorem profile_fallback_zero_credits (key : List Nat)
    (enableEncryption : Bool) (rawParams : List (String × List Nat))
    (result : Except JVal JVal)
    (h : (∃ e, result = .error e) ∨
      (∃ resp, result = .ok resp ∧ truthy (getField resp "user") = false)) :
    refreshUserProfile key enableEncryption rawParams result =
      .fromParams (getURLParamsFallback key enableEncryption rawParams) ∧
    (getURLParamsFallback key enableEncryption rawParams).monthly_credit_balance
      = 0 ∧
    (getURLParamsFallback key enableEncryption rawParams).top_up_credit_balance
      = 0 := by
  refine ⟨?_, rfl, rfl⟩
  rcases h with ⟨e, rfl⟩ | ⟨resp, rfl, hresp⟩
  · rfl
  · show (if (truthy (getField resp "user") && !truthy (getField resp "error")) = true
        then ProfileResult.fromResponse (patchCredits (getField resp "user"))
        else ProfileResult.fromParams
          (getURLParamsFallback key enableEncryption rawParams)) = _
    rw [hresp]
    simp

/-- `C6` witness: a timed-out request and an `{error: "x"}`-shaped reply
(whose `user` field is absent, hence falsy) both yield the zero-credit
fallback, here with an encrypted `user_name` parameter present. -/
theorem profile_fallback_zero_credits_witness :
    refreshUserProfile (asciiCodes "key") true
        [("user_name", asciiCodes "Ada Lovelace")]
        (.error (.vStr "Request REQUEST_USER_PROFILE timed out")) =
      .fromParams (getURLParamsFallback (asciiCodes "key") true
        [("user_name", asciiCodes "Ada Lovelace")]) ∧
    (getURLParamsFallback (asciiCodes "key") true
      [("user_name", asciiCodes "Ada Lovelace")]).monthly_credit_balance = 0 := by
  have h := profile_fallback_zero_credits (asciiCodes "key") true
    [("user_name", asciiCodes "Ada Lovelace")]
    (.error (.vStr "Request REQUEST_USER_PROFILE timed out"))
    (Or.inl ⟨_, rfl⟩)
  exact ⟨h.1, h.2.1⟩

end VV

namespace VV

/-! ## `VentureVerseSDK.destroy()` and post-destroy behaviour

The basic SDK registers
`window.addEventListener('message', this.handleMessage.bind(this))` and
its `destroy()` calls
`window.removeEventListener('message', this.handleMessage.bind(this))`.
Each `bind` allocates a fresh function object; listeners are matched by
reference. Bound functions are modelled by reference numbers issued by
an allocator. -/

/-- The window's message-listener registry plus the allocator for bound
function references: every `handleMessage.bind(this)` yields a fresh
reference, unequal to every previously issued one. -/
structure ListenerEnv where
  nextRef : Nat
  listeners : List Nat
deriving Repr, DecidableEq

/-- Page-level state of one basic-SDK instance: the listener registry,
the reference registered at setup, the correlator state, the armed
`setTimeout` timers (requestId with the type captured by the callback),
and the keys of `this.messageHandlers`. -/
structure SdkFull where
  env : ListenerEnv
  boundRef : Option Nat
  corr : SdkState
  timers : List (Int × String)
  handlers : List String
deriving Repr, DecidableEq

/-- Constructor plus `setupMessageListener` in iframe mode: one bound
reference is allocated and registered. -/
def initFull : SdkFull :=
  { env := { nextRef := 1, listeners := [0] },
    boundRef := some 0,
    corr := initState,
    timers := [],
    handlers := [] }

/-- `sendMessage` at page level: a tracked send also arms its timeout
timer. -/
def sendMessageFull (s : SdkFull) (t : String) (expectResponse : Bool) :
    SdkFull × SendResult :=
  match sendMessage s.corr t expectResponse with
  | (c', .tracked rid) =>
    ({ s with corr := c', timers := (rid, t) :: s.timers }, .tracked rid)
  | (c', .immediate) => ({ s with corr := c' }, .immediate)

/-- `VentureVerseSDK.destroy()` as written: in iframe mode,
`removeEventListener('message', this.handleMessage.bind(this))` — the
freshly bound function (a new reference) is what is removed, not the
reference registered at setup; then `pendingRequests.clear()` and
`messageHandlers.clear()`. No `clearTimeout` is issued, so armed timers
stay armed. -/
def destroy (s : SdkFull) (isIframeMode : Bool) : SdkFull :=
  let env' :=
    if isIframeMode then
      { nextRef := s.env.nextRef + 1,
        listeners := s.env.listeners.erase s.env.nextRef }
    else s.env
  { env := env',
    boundRef := s.boundRef,
    corr := { s.corr with pending := [] },
    timers := s.timers,
    handlers := [] }

/-- Whether a delivered `message` event reaches the SDK's handler. -/
inductive DeliverResult where
  | noListener
  | handled (r : HandleResult)
deriving Repr

/-- Delivery of a `message` event at page level: the handler runs iff
the reference registered at setup is still in the window's listener
list; a settlement also clears that call's timer (`clearTimeout` in the
wrapped resolve/reject). -/
def deliverMessage (s : SdkFull) (msg : JVal) : SdkFull × DeliverResult :=
  match s.boundRef with
  | some ref =>
    if ref ∈ s.env.listeners then
      match handleMessage s.corr msg with
      | (c', r) =>
        let timers' :=
          match r with
          | .settled rid _ => s.timers.eraseP (·.1 == rid)
          | _ => s.timers
        ({ s with corr := c', timers := timers' }, .handled r)
    else
      (s, .noListener)
  | none => (s, .noListener)

/-- An armed timer firing at page level: the `setTimeout` callback
deletes the requestId from `pendingRequests` (a no-op when already
absent) and unconditionally calls `reject(new Error(...))` on its
call's promise. -/
def fireTimerFull (s : SdkFull) (rid : Int) : SdkFull × Option Outcome :=
  match s.timers.lookup rid with
  | some t =>
    ({ s with
        corr := { s.corr with pending := s.corr.pending.eraseP (·.1 == rid) },
        timers := s.timers.eraseP (·.1 == rid) },
      some (.rejected (.vStr ("Request " ++ t ++ " timed out"))))
  | none => (s, none)

/-- `C2` — the code violates the claim; evaluation of `destroy()` as
written, on an instance with one in-flight tracked call: after
`destroy()`, (1) the listener registered at setup is still in the
window's listener list (the `removeEventListener` call passed a fresh
`bind` result, which matches nothing); (2) the in-flight call's timeout
timer is still armed; (3) a subsequently delivered valid message still
reaches the handler and dispatches to the built-in
`USER_PROFILE_RESPONSE` branch; and (4) the armed timer later fires and
rejects the destroyed call's still-unsettled promise. Each of these is
an observable side effect the claim says cannot occur. -/
theorem destroy_not_clean :
    (destroy (sendMessageFull initFull "REQUEST_USER_PROFILE" true).1 true).env.listeners
      = [0] ∧
    (destroy (sendMessageFull initFull "REQUEST_USER_PROFILE" true).1 true).timers
      = [(1, "REQUEST_USER_PROFILE")] ∧
    (deliverMessage
        (destroy (sendMessageFull initFull "REQUEST_USER_PROFILE" true).1 true)
        (JVal.vObj [("type", JVal.vStr "USER_PROFILE_RESPONSE"),
          ("timestamp", JVal.vStr "2024-01-01T00:00:00Z"),
          ("source", JVal.vStr "parent"),
          ("payload", JVal.vObj [("user", JVal.vObj [])])])).2 =
      .handled (.dispatched (JVal.vStr "USER_PROFILE_RESPONSE")) ∧
    (fireTimerFull
        (destroy (sendMessageFull initFull "REQUEST_USER_PROFILE" true).1 true)
        1).2 =
      some (.rejected (.vStr "Request REQUEST_USER_PROFILE timed out")) := by
  exact ⟨rfl, rfl, rfl, rfl⟩

end VV
